import Mathlib

/-!
# Verification of the nostr-poster publishing core

Shallow embedding of `src/index.js` from the `besoeasy/nostr-poster`
repository, together with theorems settling the frozen claims about it.

The embedding covers:
* `calculatePow` — the proof-of-work mining loop (pure behavioural model and
  a store-instrumented model capturing the JavaScript aliasing behaviour);
* `connectAndPublish`'s message handler — the ack-frame recognition logic;
* `publishToRelay` — the retry loop with exponential backoff;
* `postToNostr`'s relay-result processing — partitioning of settled
  promises and the all-relays-failed check;
* `validateAndSanitizeInputs`' powDifficulty sanitization.

External collaborators (`getEventHash` from nostr-tools, the WebSocket
transport) are parameters of the embedding: the hash function is an
arbitrary `NostrEvent → String`, and a relay's per-attempt behaviour is an
arbitrary `Nat → AttemptOutcome` sequence.
-/

/-- A Nostr event as built by `postToNostr` (`src/index.js` lines 308-314):
`{ kind, created_at, tags, content, pubkey }`, with `tags` an ordered list
of string lists. -/
structure NostrEvent where
  kind : Nat
  created_at : Nat
  tags : List (List String)
  content : String
  pubkey : String
deriving DecidableEq

/-- `tag[0] === "nonce"` from the filter in `calculatePow`
(`src/index.js` line 130); an empty tag has `tag[0] === undefined`,
which is not `"nonce"`. -/
def isNonceTag (t : List String) : Bool :=
  t.head? == some "nonce"

/-- The tag pushed each iteration: `["nonce", String(nonce), String(difficulty)]`
(`src/index.js` line 131). -/
def nonceTag (nonce difficulty : Nat) : List String :=
  ["nonce", toString nonce, toString difficulty]

/-- One iteration's tag update in `calculatePow` (`src/index.js` lines 130-131):
remove existing nonce tags, then push the fresh nonce tag. -/
def setNonce (tags : List (List String)) (nonce difficulty : Nat) : List (List String) :=
  tags.filter (fun t => !(isNonceTag t)) ++ [nonceTag nonce difficulty]

/-- `hash.startsWith(targetPrefix)` where `targetPrefix = "0".repeat(difficulty)`
(`src/index.js` lines 118 and 139), phrased on the character list of the
hash string. -/
def hashMeetsDifficulty (hash : String) (difficulty : Nat) : Bool :=
  (List.replicate difficulty '0').isPrefixOf hash.data

/-- The attempt ceiling of the mining loop (`src/index.js` line 136). -/
def POW_MAX_ATTEMPTS : Nat := 10000000

/-- The error thrown when the ceiling is hit (`src/index.js` line 137). -/
def powErrorMsg (difficulty : Nat) : String :=
  s!"POW calculation exceeded maximum attempts for difficulty {difficulty}"

/-- The `do ... while` body of `calculatePow` (`src/index.js` lines 123-139).
Each iteration replaces the nonce tag, hashes, increments the counter,
throws if the counter exceeds the ceiling, and otherwise exits when the
hash meets the target prefix.  The loop is driven by structural fuel; the
caller supplies `POW_MAX_ATTEMPTS + 1` units so the fuel-out branch is
unreachable (the ceiling check fires first) and is given the same error
value as the ceiling. -/
def powLoop (hash : NostrEvent → String) (difficulty : Nat) :
    NostrEvent → Nat → Nat → Except String NostrEvent
  | _, _, 0 => .error (powErrorMsg difficulty)
  | we, nonce, fuel + 1 =>
    let we' : NostrEvent := { we with tags := setNonce we.tags nonce difficulty }
    let h := hash we'
    if POW_MAX_ATTEMPTS < nonce + 1 then
      .error (powErrorMsg difficulty)
    else if hashMeetsDifficulty h difficulty then
      .ok we'
    else
      powLoop hash difficulty we' (nonce + 1) fuel

/-- `calculatePow(event, difficulty)` (`src/index.js` lines 112-142), with the
external `getEventHash` passed as the `hash` parameter.  Difficulty 0
returns the input at once; otherwise the loop searches nonces from 0.
(The `{ ...event, tags: [...event.tags] }` copy is the identity at this
pure level; the aliasing it exists for is modelled by `calculatePowStore`
below.) -/
def calculatePow (hash : NostrEvent → String) (event : NostrEvent)
    (difficulty : Nat) : Except String NostrEvent :=
  if difficulty = 0 then .ok event
  else powLoop hash difficulty event 0 (POW_MAX_ATTEMPTS + 1)

/-- The event hashed at iteration `n` of the loop: the input event with all
nonce tags removed and the tag for nonce `n` appended. -/
def candidate (event : NostrEvent) (difficulty n : Nat) : NostrEvent :=
  { event with tags := setNonce event.tags n difficulty }

/-- Leading zero bits contributed by a single (lowercase hex) character that
is not `'0'`: the number of high zero bits of its 4-bit value.  A character
outside the hex alphabet contributes none. -/
def charZeroBits (c : Char) : Nat :=
  if c = '1' then 3
  else if c = '2' ∨ c = '3' then 2
  else if c = '4' ∨ c = '5' ∨ c = '6' ∨ c = '7' then 1
  else 0

/-- Number of leading zero bits of a hex string read as a big-endian bit
string: each leading `'0'` character contributes 4 bits, and the first
other character contributes the high zero bits of its own nibble. -/
def leadingZeroBits : List Char → Nat
  | [] => 0
  | c :: rest => if c = '0' then 4 + leadingZeroBits rest else charZeroBits c

/-- Leading zero bits of a hash string. -/
def leadingZeroBitsS (s : String) : Nat :=
  leadingZeroBits s.data

/-- C6: For every unsigned event, mine (calculatePow) with difficulty 0
returns the input event unchanged (no nonce tag is added): the
`if (difficulty === 0) return event;` fast path of `src/index.js` line 113. -/
theorem calculatePow_zero_difficulty_identity
    (hash : NostrEvent → String) (event : NostrEvent) :
    calculatePow hash event 0 = .ok event := by
  simp [calculatePow]

/-- A non-`'0'` character contributes at most 3 leading zero bits. -/
theorem charZeroBits_le_three (c : Char) : charZeroBits c ≤ 3 := by
  unfold charZeroBits
  split_ifs <;> omega

/-- The hex-prefix check of the source (`hash.startsWith("0".repeat(d))`) is
equivalent to the hash having at least `4 * d` leading zero bits. -/
theorem hashMeetsDifficulty_iff_bits (d : Nat) :
    ∀ l : List Char,
      (List.replicate d '0').isPrefixOf l = true ↔ 4 * d ≤ leadingZeroBits l := by
  induction d with
  | zero =>
    intro l
    simp [List.isPrefixOf]
  | succ d ih =>
    intro l
    cases l with
    | nil =>
      simp [List.replicate, List.isPrefixOf, leadingZeroBits]
    | cons c rest =>
      simp only [List.replicate, List.isPrefixOf, leadingZeroBits]
      by_cases hc : c = '0'
      · subst hc
        simp only [beq_self_eq_true, Bool.true_and, if_pos]
        rw [ih rest]
        omega
      · have hb : ('0' == c) = false := by
          simp [beq_eq_false_iff_ne]
          exact fun h => hc h.symm
        rw [hb]
        simp only [Bool.false_and, if_neg hc]
        have := charZeroBits_le_three c
        constructor
        · intro h
          simp at h
        · intro h
          omega

/-- String-level corollary of `hashMeetsDifficulty_iff_bits`. -/
theorem hashMeetsDifficulty_iff_bitsS (s : String) (d : Nat) :
    hashMeetsDifficulty s d = true ↔ 4 * d ≤ leadingZeroBitsS s := by
  unfold hashMeetsDifficulty leadingZeroBitsS
  exact hashMeetsDifficulty_iff_bits d s.data

/-- The iteration's tag update leaves the non-nonce tags unchanged: filtering
the nonce tags back out of `setNonce tags n d` recovers the filtered input. -/
theorem setNonce_filter (tags : List (List String)) (n d : Nat) :
    (setNonce tags n d).filter (fun t => !(isNonceTag t)) =
      tags.filter (fun t => !(isNonceTag t)) := by
  simp [setNonce, List.filter_append, List.filter_filter, isNonceTag, nonceTag]

/-- Loop invariant characterisation of a successful mining run: starting the
loop at counter `nonce` on an event whose non-nonce tags agree with `ev`'s,
a returned event is the candidate for the first nonce `n ≥ nonce` whose
hash meets the hex target, and no earlier tried nonce meets it. -/
theorem powLoop_ok_spec (hash : NostrEvent → String) (d : Nat) (ev : NostrEvent) :
    ∀ (fuel : Nat) (ts : List (List String)) (nonce : Nat) (r : NostrEvent),
      ts.filter (fun t => !(isNonceTag t)) = ev.tags.filter (fun t => !(isNonceTag t)) →
      powLoop hash d { ev with tags := ts } nonce fuel = Except.ok r →
      ∃ n, nonce ≤ n ∧ r = candidate ev d n ∧
        hashMeetsDifficulty (hash r) d = true ∧
        ∀ m, nonce ≤ m → m < n → hashMeetsDifficulty (hash (candidate ev d m)) d = false := by
  intro fuel
  induction fuel with
  | zero =>
    intro ts nonce r hfil hrun
    simp [powLoop] at hrun
  | succ fuel ih =>
    intro ts nonce r hfil hrun
    have hset : setNonce ts nonce d = setNonce ev.tags nonce d := by
      simp [setNonce, hfil]
    simp only [powLoop] at hrun
    have hcand : ({ ev with tags := setNonce ts nonce d } : NostrEvent)
        = candidate ev d nonce := by
      unfold candidate
      rw [hset]
    split at hrun
    · simp at hrun
    · split at hrun
      · rename_i hmeet
        simp only [Except.ok.injEq] at hrun
        subst hrun
        refine ⟨nonce, Nat.le_refl _, hcand, hmeet, ?_⟩
        intro m h1 h2
        omega
      · rename_i hmeet
        have hrun' : powLoop hash d { ev with tags := setNonce ts nonce d } (nonce + 1) fuel
            = Except.ok r := hrun
        obtain ⟨n, hn1, hn2, hn3, hn4⟩ :=
          ih (setNonce ts nonce d) (nonce + 1) r
            (by rw [setNonce_filter]; exact hfil) hrun'
        refine ⟨n, by omega, hn2, hn3, ?_⟩
        intro m h1 h2
        rcases Nat.eq_or_lt_of_le h1 with heq | hlt
        · rw [← heq, ← hcand]
          simp only [Bool.not_eq_true] at hmeet
          exact hmeet
        · exact hn4 m hlt h2

deriving instance DecidableEq for Except

/-- C1 (amended): with the hash function fixed, for every difficulty `d > 0`
a successful mine (calculatePow) returns the candidate event of the
smallest nonce `≥ 0` whose hash has at least `4 * d` leading zero bits
(the source checks `d` leading zero *hex characters*, i.e. `4 * d` bits,
not `d` bits), and re-hashing the returned event yields a hash with
`≥ 4 * d` (hence `≥ d`) leading zero bits. -/
theorem calculatePow_minimal_hex_nonce (hash : NostrEvent → String)
    (ev r : NostrEvent) (d : Nat) (hd : 0 < d)
    (hok : calculatePow hash ev d = Except.ok r) :
    ∃ n, r = candidate ev d n ∧
      4 * d ≤ leadingZeroBitsS (hash r) ∧
      ∀ m, m < n → leadingZeroBitsS (hash (candidate ev d m)) < 4 * d := by
  unfold calculatePow at hok
  rw [if_neg (Nat.pos_iff_ne_zero.mp hd)] at hok
  obtain ⟨n, _, hr, hmeet, hmin⟩ :=
    powLoop_ok_spec hash d ev (POW_MAX_ATTEMPTS + 1) ev.tags 0 r rfl hok
  refine ⟨n, hr, (hashMeetsDifficulty_iff_bitsS _ _).mp hmeet, ?_⟩
  intro m hm
  have hfalse := hmin m (Nat.zero_le m) hm
  by_contra hcon
  push_neg at hcon
  rw [(hashMeetsDifficulty_iff_bitsS _ _).mpr hcon] at hfalse
  simp at hfalse

/-- Witness event for the C1 theorem. -/
def wEvent : NostrEvent := ⟨1, 0, [], "x", "p"⟩

/-- Witness hash function for the C1 theorem: every candidate hashes to
`"00"`, so the loop succeeds at nonce 0. -/
def wHash : NostrEvent → String := fun _ => "00"

/-- Witness for the C1 theorem at a concrete mining run. -/
theorem calculatePow_minimal_hex_nonce_witness :
    4 * 1 ≤ leadingZeroBitsS (wHash (candidate wEvent 1 0)) := by
  obtain ⟨n, hr, hbits, hmin⟩ :=
    calculatePow_minimal_hex_nonce wHash wEvent (candidate wEvent 1 0) 1
      (by decide) (by decide)
  exact hbits

/-- Counterexample event for C1 as stated. -/
def cexEvent : NostrEvent := ⟨1, 0, [], "x", "p"⟩

/-- Counterexample hash function for C1 as stated: the nonce-0 candidate
hashes to `"10"` (3 leading zero bits, so ≥ 1), every other candidate to
`"00"`. -/
def cexHash : NostrEvent → String :=
  fun e => if e.tags = [nonceTag 0 1] then "10" else "00"

/-- C1 as stated is false: at difficulty 1 the loop skips nonce 0 even
though its hash already has `≥ 1` leading zero bit (it is not a zero *hex
character*), and returns the nonce-1 candidate instead — so the nonce tag
does not encode the smallest nonce whose hash has `≥ d` leading zero
bits. -/
theorem calculatePow_not_bitwise_minimal_cex :
    calculatePow cexHash cexEvent 1 = Except.ok (candidate cexEvent 1 1) ∧
    1 ≤ leadingZeroBitsS (cexHash (candidate cexEvent 1 0)) ∧
    candidate cexEvent 1 1 ≠ candidate cexEvent 1 0 := by
  decide

/-- If no event's hash ever meets the target, every run of the mining loop
ends in the ceiling error, from any starting counter and any fuel. -/
theorem powLoop_unsat (hash : NostrEvent → String) (d : Nat)
    (hunsat : ∀ e, hashMeetsDifficulty (hash e) d = false) :
    ∀ (fuel : Nat) (we : NostrEvent) (nonce : Nat),
      powLoop hash d we nonce fuel = Except.error (powErrorMsg d) := by
  intro fuel
  induction fuel with
  | zero =>
    intro we nonce
    simp [powLoop]
  | succ fuel ih =>
    intro we nonce
    simp only [powLoop]
    split
    · rfl
    · rw [hunsat]
      simp only [Bool.false_eq_true, if_false]
      exact ih _ _

/-- C7: for every difficulty `d > 0` whose hex-prefix predicate is
unsatisfiable, mine (calculatePow) terminates with the
`POW calculation exceeded maximum attempts` error (the ceiling check of
`src/index.js` lines 136-138) rather than looping forever. -/
theorem calculatePow_unsat_exhausts (hash : NostrEvent → String)
    (ev : NostrEvent) (d : Nat) (hd : 0 < d)
    (hunsat : ∀ e, hashMeetsDifficulty (hash e) d = false) :
    calculatePow hash ev d = Except.error (powErrorMsg d) := by
  unfold calculatePow
  rw [if_neg (Nat.pos_iff_ne_zero.mp hd)]
  exact powLoop_unsat hash d hunsat _ _ _

/-- Witness hash function for the C7 theorem: a constant hash with no
leading zero character, so no difficulty `> 0` is ever met. -/
def unsatHash : NostrEvent → String := fun _ => "1"

/-- Witness for the C7 theorem at a concrete unsatisfiable run. -/
theorem calculatePow_unsat_exhausts_witness :
    calculatePow unsatHash ⟨1, 0, [], "x", "p"⟩ 1 = Except.error (powErrorMsg 1) :=
  calculatePow_unsat_exhausts unsatHash ⟨1, 0, [], "x", "p"⟩ 1
    (by decide) (by intro e; simp only [unsatHash]; decide)

/-! ## Store-instrumented model of `calculatePow`

The JavaScript function mutates array objects on a heap: `{ ...event,
tags: [...event.tags] }` allocates a copy of the caller's tags array,
`filter` allocates a fresh array, and `push` mutates that fresh array in
place.  To settle the frame-effect claim we model the heap of tag arrays
explicitly: a `Store` maps array references (indices) to contents, and an
`EventRef` is an event holding a reference to its tags array. -/

/-- A tags array object. -/
abbrev TagArray := List (List String)

/-- The heap of tag-array objects; an array reference is an index. -/
abbrev Store := List TagArray

/-- Allocate a fresh array object holding `v`; returns the new store and the
fresh reference. -/
def allocArr (st : Store) (v : TagArray) : Store × Nat :=
  (st ++ [v], st.length)

/-- Dereference an array object. -/
def readArr (st : Store) (r : Nat) : TagArray :=
  st.getD r []

/-- Mutate an array object in place. -/
def writeArr (st : Store) (r : Nat) (v : TagArray) : Store :=
  st.set r v

/-- An event whose `tags` field is a reference into the store. -/
structure EventRef where
  kind : Nat
  created_at : Nat
  tagsRef : Nat
  content : String
  pubkey : String
deriving DecidableEq

/-- Materialise the event an `EventRef` denotes (what `getEventHash` sees). -/
def derefEvent (st : Store) (e : EventRef) : NostrEvent :=
  { kind := e.kind, created_at := e.created_at, tags := readArr st e.tagsRef,
    content := e.content, pubkey := e.pubkey }

/-- Store-level model of the `do ... while` body of `calculatePow`
(`src/index.js` lines 123-139): `filter` allocates a fresh array which is
assigned to `workEvent.tags`, and `push` then mutates that fresh array in
place before the candidate is hashed. -/
def powLoopStore (hash : NostrEvent → String) (difficulty : Nat) :
    Store → EventRef → Nat → Nat → Store × Except String EventRef
  | st, _, _, 0 => (st, .error (powErrorMsg difficulty))
  | st, we, nonce, fuel + 1 =>
    let filtered := (readArr st we.tagsRef).filter (fun t => !(isNonceTag t))
    let st1 := (allocArr st filtered).1
    let rNew := (allocArr st filtered).2
    let we' : EventRef := { we with tagsRef := rNew }
    let st2 := writeArr st1 rNew (filtered ++ [nonceTag nonce difficulty])
    let h := hash (derefEvent st2 we')
    if POW_MAX_ATTEMPTS < nonce + 1 then
      (st2, .error (powErrorMsg difficulty))
    else if hashMeetsDifficulty h difficulty then
      (st2, .ok we')
    else
      powLoopStore hash difficulty st2 we' (nonce + 1) fuel

/-- Store-level model of `calculatePow` (`src/index.js` lines 112-142):
difficulty 0 returns the caller's event reference untouched; otherwise
`{ ...event, tags: [...event.tags] }` first allocates a copy of the
caller's tags array, and the loop works on that copy. -/
def calculatePowStore (hash : NostrEvent → String) (st : Store)
    (event : EventRef) (difficulty : Nat) : Store × Except String EventRef :=
  if difficulty = 0 then (st, .ok event)
  else
    let copyTags := readArr st event.tagsRef
    let stc := (allocArr st copyTags).1
    let rCopy := (allocArr st copyTags).2
    powLoopStore hash difficulty stc { event with tagsRef := rCopy } 0
      (POW_MAX_ATTEMPTS + 1)

/-- Reading below the allocation point is unaffected by an allocation. -/
theorem readArr_alloc_lt (st : Store) (v : TagArray) (r : Nat)
    (h : r < st.length) : readArr (allocArr st v).1 r = readArr st r := by
  simp [readArr, allocArr, List.getD_eq_getElem?_getD, List.getElem?_append_left h]

/-- Reading a freshly allocated reference yields the allocated contents. -/
theorem readArr_alloc_self (st : Store) (v : TagArray) :
    readArr (allocArr st v).1 (allocArr st v).2 = v := by
  simp [readArr, allocArr, List.getD_eq_getElem?_getD,
    List.getElem?_append_right (Nat.le_refl _)]

/-- Writing one reference does not change another. -/
theorem readArr_write_ne (st : Store) (w r : Nat) (v : TagArray)
    (h : w ≠ r) : readArr (writeArr st w v) r = readArr st r := by
  simp [readArr, writeArr, List.getD_eq_getElem?_getD, List.getElem?_set_ne h]

/-- Writing a valid reference stores the written contents. -/
theorem readArr_write_self (st : Store) (w : Nat) (v : TagArray)
    (h : w < st.length) : readArr (writeArr st w v) w = v := by
  simp [readArr, writeArr, List.getD_eq_getElem?_getD,
    List.getElem?_set_eq_of_lt v h]

/-- Frame property of the mining loop: the store only grows, and every array
object that existed before the loop ran is unchanged by it (the loop only
mutates arrays it allocated itself). -/
theorem powLoopStore_frame (hash : NostrEvent → String) (d : Nat) :
    ∀ (fuel : Nat) (st : Store) (we : EventRef) (nonce : Nat),
      st.length ≤ (powLoopStore hash d st we nonce fuel).1.length ∧
      ∀ r, r < st.length →
        readArr (powLoopStore hash d st we nonce fuel).1 r = readArr st r := by
  intro fuel
  induction fuel with
  | zero =>
    intro st we nonce
    simp [powLoopStore]
  | succ fuel ih =>
    intro st we nonce
    have key : ∀ (st2 : Store) (we' : EventRef),
        st2.length = st.length + 1 →
        (∀ r, r < st.length → readArr st2 r = readArr st r) →
        st.length ≤ (powLoopStore hash d st2 we' (nonce + 1) fuel).1.length ∧
        ∀ r, r < st.length →
          readArr (powLoopStore hash d st2 we' (nonce + 1) fuel).1 r = readArr st r := by
      intro st2 we' hlen hrd
      obtain ⟨ihlen, ihread⟩ := ih st2 we' (nonce + 1)
      refine ⟨by omega, ?_⟩
      intro r hr
      rw [ihread r (by omega)]
      exact hrd r hr
    have hread : ∀ r, r < st.length →
        readArr (writeArr (allocArr st ((readArr st we.tagsRef).filter
          (fun t => !(isNonceTag t)))).1 (allocArr st ((readArr st we.tagsRef).filter
          (fun t => !(isNonceTag t)))).2 (((readArr st we.tagsRef).filter
          (fun t => !(isNonceTag t))) ++ [nonceTag nonce d])) r = readArr st r := by
      intro r hr
      rw [readArr_write_ne _ _ _ _ (by simp [allocArr]; omega)]
      exact readArr_alloc_lt st _ r hr
    simp only [powLoopStore]
    split
    · exact ⟨by simp [writeArr, allocArr], hread⟩
    · split
      · exact ⟨by simp [writeArr, allocArr], hread⟩
      · exact key _ _ (by simp [writeArr, allocArr]) hread

/-- A successful run of the store-level mining loop returns a reference that
was allocated by the loop itself (it is `≥` the incoming store bound), and
that array holds the original non-nonce tags followed by a single nonce
tag. -/
theorem powLoopStore_ok_spec (hash : NostrEvent → String) (d : Nat)
    (origTags : TagArray) :
    ∀ (fuel : Nat) (st : Store) (we : EventRef) (nonce : Nat),
      (readArr st we.tagsRef).filter (fun t => !(isNonceTag t)) =
        origTags.filter (fun t => !(isNonceTag t)) →
      ∀ (st' : Store) (res : EventRef),
        powLoopStore hash d st we nonce fuel = (st', .ok res) →
        st.length ≤ res.tagsRef ∧
        ∃ n, readArr st' res.tagsRef =
          origTags.filter (fun t => !(isNonceTag t)) ++ [nonceTag n d] := by
  intro fuel
  induction fuel with
  | zero =>
    intro st we nonce hfil st' res hrun
    simp [powLoopStore] at hrun
  | succ fuel ih =>
    intro st we nonce hfil st' res hrun
    have hws : readArr (writeArr
        (allocArr st ((readArr st we.tagsRef).filter (fun t => !(isNonceTag t)))).1
        (allocArr st ((readArr st we.tagsRef).filter (fun t => !(isNonceTag t)))).2
        (((readArr st we.tagsRef).filter (fun t => !(isNonceTag t)))
          ++ [nonceTag nonce d]))
        (allocArr st ((readArr st we.tagsRef).filter (fun t => !(isNonceTag t)))).2
        = ((readArr st we.tagsRef).filter (fun t => !(isNonceTag t)))
          ++ [nonceTag nonce d] :=
      readArr_write_self _ _ _ (by simp [allocArr])
    simp only [powLoopStore] at hrun
    split at hrun
    · simp at hrun
    · split at hrun
      · simp only [Prod.mk.injEq, Except.ok.injEq] at hrun
        obtain ⟨hst, hres⟩ := hrun
        subst hst
        subst hres
        refine ⟨by simp [allocArr], nonce, ?_⟩
        show readArr _ (allocArr st ((readArr st we.tagsRef).filter
          (fun t => !(isNonceTag t)))).2 = _
        rw [hws, hfil]
      · obtain ⟨hlen, hex⟩ := ih _ _ (nonce + 1) (by
          show (readArr _ ({ we with tagsRef := (allocArr st ((readArr st
            we.tagsRef).filter (fun t => !(isNonceTag t)))).2 } : EventRef).tagsRef).filter
              (fun t => !(isNonceTag t)) = _
          show (readArr _ (allocArr st ((readArr st we.tagsRef).filter
            (fun t => !(isNonceTag t)))).2).filter (fun t => !(isNonceTag t)) = _
          rw [hws]
          exact (setNonce_filter (readArr st we.tagsRef) nonce d).trans hfil) st' res hrun
        refine ⟨?_, hex⟩
        have : st.length + 1 = (writeArr
            (allocArr st ((readArr st we.tagsRef).filter (fun t => !(isNonceTag t)))).1
            (allocArr st ((readArr st we.tagsRef).filter (fun t => !(isNonceTag t)))).2
            (((readArr st we.tagsRef).filter (fun t => !(isNonceTag t)))
              ++ [nonceTag nonce d])).length := by
          simp [writeArr, allocArr]
        omega

/-- C9: For every event and every difficulty `d > 0`, mine (calculatePow)
never modifies the event object it is given: every array that existed in
the store before the call — in particular the caller's tags array — reads
the same afterwards, and a mined result refers to a fresh tags array
(allocated by the call, hence a different reference than the caller's)
holding the caller's non-nonce tags plus the nonce tag. -/
theorem calculatePowStore_preserves_caller_event (hash : NostrEvent → String)
    (st : Store) (ev : EventRef) (d : Nat) (hd : 0 < d)
    (href : ev.tagsRef < st.length) :
    (∀ r, r < st.length →
      readArr (calculatePowStore hash st ev d).1 r = readArr st r) ∧
    ∀ res, (calculatePowStore hash st ev d).2 = .ok res →
      res.tagsRef ≠ ev.tagsRef ∧
      ∃ n, readArr (calculatePowStore hash st ev d).1 res.tagsRef =
        (readArr st ev.tagsRef).filter (fun t => !(isNonceTag t))
          ++ [nonceTag n d] := by
  simp only [calculatePowStore, if_neg (Nat.pos_iff_ne_zero.mp hd)]
  constructor
  · intro r hr
    obtain ⟨_, hrd⟩ := powLoopStore_frame hash d (POW_MAX_ATTEMPTS + 1)
      (allocArr st (readArr st ev.tagsRef)).1
      { ev with tagsRef := (allocArr st (readArr st ev.tagsRef)).2 } 0
    rw [hrd r (by simp [allocArr]; omega)]
    exact readArr_alloc_lt st _ r hr
  · intro res hok
    have hpair : powLoopStore hash d (allocArr st (readArr st ev.tagsRef)).1
        { ev with tagsRef := (allocArr st (readArr st ev.tagsRef)).2 } 0
        (POW_MAX_ATTEMPTS + 1)
        = ((powLoopStore hash d (allocArr st (readArr st ev.tagsRef)).1
            { ev with tagsRef := (allocArr st (readArr st ev.tagsRef)).2 } 0
            (POW_MAX_ATTEMPTS + 1)).1, .ok res) := by
      rw [← hok]
    obtain ⟨hlen, hex⟩ := powLoopStore_ok_spec hash d (readArr st ev.tagsRef)
      (POW_MAX_ATTEMPTS + 1) (allocArr st (readArr st ev.tagsRef)).1
      { ev with tagsRef := (allocArr st (readArr st ev.tagsRef)).2 } 0
      (by
        show (readArr _ (allocArr st (readArr st ev.tagsRef)).2).filter
          (fun t => !(isNonceTag t)) = _
        rw [readArr_alloc_self])
      _ res hpair
    refine ⟨?_, hex⟩
    have : (allocArr st (readArr st ev.tagsRef)).1.length = st.length + 1 := by
      simp [allocArr]
    omega

/-- Witness store for the C9 theorem: one pre-existing tags array. -/
def w9Store : Store := [[["t", "x"]]]

/-- Witness event reference for the C9 theorem. -/
def w9Event : EventRef := ⟨1, 0, 0, "x", "p"⟩

/-- Witness for the C9 theorem: after a concrete mining run, the caller's
tags array is unchanged. -/
theorem calculatePowStore_preserves_caller_event_witness :
    readArr (calculatePowStore wHash w9Store w9Event 1).1 0 = readArr w9Store 0 :=
  (calculatePowStore_preserves_caller_event wHash w9Store w9Event 1
    (by decide) (by decide)).1 0 (by decide)

/-! ## Relay publishing -/

/-- A JavaScript value as it can appear as an element of a parsed ack
frame. -/
inductive JSVal where
  | undef
  | null
  | str (s : String)
  | bool (b : Bool)
  | num (q : Rat)
deriving DecidableEq

/-- JavaScript truthiness of a `JSVal` (used by `!!success` and
`message || null`). -/
def jsTruthy : JSVal → Bool
  | .undef => false
  | .null => false
  | .str s => !(s == "")
  | .bool b => b
  | .num q => !(q == 0)

/-- The value `connectAndPublish` resolves with
(`src/index.js` lines 192-196): `{ relay, success: !!success,
message: message || null }`. -/
structure AckResult where
  relay : String
  success : Bool
  message : JSVal
deriving DecidableEq

/-- The `ws.on("message", ...)` handler of `connectAndPublish`
(`src/index.js` lines 184-201), applied to one received frame.  `frame` is
the `JSON.parse` result when it parses as an array whose elements 0..3 the
destructuring `const [type, id, success, message] = JSON.parse(data)`
reads (missing elements read as `undefined`); `none` stands for data that
fails to parse or destructure, which the `catch` block logs and ignores.
The handler resolves (returns `some`) exactly when element 0 is `"OK"` and
element 1 equals the published event's id; on any other frame it keeps
waiting (returns `none`). -/
def handleMessage (relayUrl eventId : String) :
    Option (List JSVal) → Option AckResult
  | none => none
  | some xs =>
    let ty := xs.getD 0 .undef
    let id := xs.getD 1 .undef
    let success := xs.getD 2 .undef
    let message := xs.getD 3 .undef
    if ty = JSVal.str "OK" ∧ id = JSVal.str eventId then
      some { relay := relayUrl, success := jsTruthy success,
             message := if jsTruthy message then message else .null }
    else
      none

/-- C4 counterexample: a 2-element frame `["OK", eventId]` — not the
4-element ack shape — is nevertheless treated as the ack (resolving with
`success = false`, since the missing success flag destructures to
`undefined`), refuting the claim that only exactly-4-element frames are
accepted. -/
theorem handleMessage_two_element_frame_cex :
    handleMessage "wss://relay.example" "abc"
      (some [JSVal.str "OK", JSVal.str "abc"]) =
      some { relay := "wss://relay.example", success := false,
             message := JSVal.null } := by
  decide

/-- C4 (amended): a received frame is treated as the ack if and only if its
element 0 is the string `"OK"` and its element 1 equals the published
event's id — the frame's length is otherwise unconstrained (missing
success flag/message read as `undefined`, extra elements are ignored) —
and an unparseable frame is never treated as the ack. -/
theorem handleMessage_ack_iff_ok_and_matching_id (relayUrl eventId : String)
    (xs : List JSVal) :
    ((handleMessage relayUrl eventId (some xs)).isSome = true ↔
      (xs.getD 0 .undef = JSVal.str "OK" ∧
        xs.getD 1 .undef = JSVal.str eventId)) ∧
    handleMessage relayUrl eventId none = none := by
  constructor
  · simp only [handleMessage]
    by_cases h : xs.getD 0 JSVal.undef = JSVal.str "OK" ∧
        xs.getD 1 JSVal.undef = JSVal.str eventId
    · rw [if_pos h]
      exact iff_of_true (by simp) h
    · rw [if_neg h]
      exact iff_of_false (by simp) h
  · rfl

/-- Witness for the C4 theorem: a well-formed 4-element ack frame with
matching id is recognised. -/
theorem handleMessage_ack_iff_ok_and_matching_id_witness :
    (handleMessage "wss://relay.example" "id1"
      (some [JSVal.str "OK", JSVal.str "id1", JSVal.bool true,
        JSVal.str "stored"])).isSome = true :=
  ((handleMessage_ack_iff_ok_and_matching_id "wss://relay.example" "id1"
    [JSVal.str "OK", JSVal.str "id1", JSVal.bool true,
      JSVal.str "stored"]).1).mpr (by decide)

/-- The failure modes with which a `connectAndPublish` attempt can reject:
its three `reject` sites are the timeout (`src/index.js` line 168) and two
transport-level failures (send failure, line 179, and socket error,
line 207). -/
inductive RelayError where
  | timeout (relay : String)
  | transport (relay msg : String)
deriving DecidableEq

/-- The outcome of one `connectAndPublish` attempt: the promise either
resolves with an ack result (success flag either way — an explicit relay
rejection resolves with `success = false`), or rejects with a
`RelayError`. -/
inductive AttemptOutcome where
  | resolved (a : AckResult)
  | rejectedWith (e : RelayError)
deriving DecidableEq

/-- The retry `for` loop of `publishToRelay` (`src/index.js` lines 222-234),
instrumented with an attempt counter and a delay trace.  Returns
`(result, attempt, delays)`: `result` is the value returned or error
thrown (`none` models falling off the loop, reachable only when
`maxRetries = 0`); `attempt` is the last attempt number entered; and
`delays` lists, in order, the backoff sleeps inserted
(`1000 * Math.pow(2, attempt - 1)` after a failed attempt, so `delays[i]`
is the pre-delay of attempt `i + 2` counting from the loop's start at
attempt 1, and no delay precedes the first attempt).  Structural fuel
equal to `maxRetries` suffices: the fuel-out result coincides with the
loop-guard exit. -/
def publishToRelayLoop (outcomes : Nat → AttemptOutcome) (maxRetries : Nat) :
    Nat → Nat → Option (Except RelayError AckResult) × Nat × List Nat
  | attempt, 0 => (none, attempt, [])
  | attempt, fuel + 1 =>
    if maxRetries < attempt then (none, attempt, [])
    else
      match outcomes attempt with
      | .resolved a => (some (.ok a), attempt, [])
      | .rejectedWith e =>
        if attempt = maxRetries then (some (.error e), attempt, [])
        else
          let r := publishToRelayLoop outcomes maxRetries (attempt + 1) fuel
          (r.1, r.2.1, 1000 * 2 ^ (attempt - 1) :: r.2.2)

/-- `publishToRelay(relayUrl, signedEvent, timeout, maxRetries)`
(`src/index.js` lines 221-235): run the retry loop from attempt 1.  The
per-attempt behaviour of `connectAndPublish` is the `outcomes`
parameter. -/
def publishToRelay (outcomes : Nat → AttemptOutcome) (maxRetries : Nat) :
    Option (Except RelayError AckResult) × Nat × List Nat :=
  publishToRelayLoop outcomes maxRetries 1 maxRetries

/-- Step equation: the loop-guard exit (`attempt > maxRetries`): fall off
the loop, returning `undefined`. -/
theorem publishToRelayLoop_guard (outcomes : Nat → AttemptOutcome)
    (maxRetries attempt fuel : Nat) (h : maxRetries < attempt) :
    publishToRelayLoop outcomes maxRetries attempt (fuel + 1)
      = (none, attempt, []) := by
  simp only [publishToRelayLoop]
  rw [if_pos h]

/-- Step equation: a resolved attempt returns its ack at once. -/
theorem publishToRelayLoop_resolved (outcomes : Nat → AttemptOutcome)
    (maxRetries attempt fuel : Nat) (a : AckResult)
    (h1 : ¬maxRetries < attempt) (h2 : outcomes attempt = .resolved a) :
    publishToRelayLoop outcomes maxRetries attempt (fuel + 1)
      = (some (.ok a), attempt, []) := by
  simp [publishToRelayLoop, h1, h2]

/-- Step equation: a rejection on the final allowed attempt rethrows. -/
theorem publishToRelayLoop_last_error (outcomes : Nat → AttemptOutcome)
    (maxRetries attempt fuel : Nat) (e : RelayError)
    (h1 : ¬maxRetries < attempt) (h2 : outcomes attempt = .rejectedWith e)
    (h3 : attempt = maxRetries) :
    publishToRelayLoop outcomes maxRetries attempt (fuel + 1)
      = (some (.error e), attempt, []) := by
  subst h3
  simp [publishToRelayLoop, h1, h2]

/-- Step equation: a rejection before the final attempt sleeps
`1000 * 2 ^ (attempt - 1)` and retries. -/
theorem publishToRelayLoop_retry (outcomes : Nat → AttemptOutcome)
    (maxRetries attempt fuel : Nat) (e : RelayError)
    (h1 : ¬maxRetries < attempt) (h2 : outcomes attempt = .rejectedWith e)
    (h3 : ¬attempt = maxRetries) :
    publishToRelayLoop outcomes maxRetries attempt (fuel + 1)
      = ((publishToRelayLoop outcomes maxRetries (attempt + 1) fuel).1,
         (publishToRelayLoop outcomes maxRetries (attempt + 1) fuel).2.1,
         1000 * 2 ^ (attempt - 1)
           :: (publishToRelayLoop outcomes maxRetries (attempt + 1) fuel).2.2) := by
  simp [publishToRelayLoop, h1, h2, h3]

/-- Attempt accounting for the retry loop: the last attempt entered is at
least the starting attempt, and every attempt strictly before it ended in
a rejection (the loop advances past an attempt only out of the `catch`
branch). -/
theorem publishToRelayLoop_attempts (outcomes : Nat → AttemptOutcome)
    (maxRetries : Nat) :
    ∀ (fuel a0 : Nat),
      a0 ≤ (publishToRelayLoop outcomes maxRetries a0 fuel).2.1 ∧
      ∀ j, a0 ≤ j → j < (publishToRelayLoop outcomes maxRetries a0 fuel).2.1 →
        ∃ e, outcomes j = .rejectedWith e := by
  intro fuel
  induction fuel with
  | zero =>
    intro a0
    refine ⟨Nat.le_refl _, ?_⟩
    intro j hj1 hj2
    simp [publishToRelayLoop] at hj2
    omega
  | succ fuel ih =>
    intro a0
    by_cases hg : maxRetries < a0
    · rw [publishToRelayLoop_guard outcomes maxRetries a0 fuel hg]
      exact ⟨Nat.le_refl _, fun j hj1 hj2 => by simp at hj2; omega⟩
    · cases houtcome : outcomes a0 with
      | resolved a =>
        rw [publishToRelayLoop_resolved outcomes maxRetries a0 fuel a hg houtcome]
        exact ⟨Nat.le_refl _, fun j hj1 hj2 => by simp at hj2; omega⟩
      | rejectedWith e =>
        by_cases hlast : a0 = maxRetries
        · rw [publishToRelayLoop_last_error outcomes maxRetries a0 fuel e hg
            houtcome hlast]
          exact ⟨Nat.le_refl _, fun j hj1 hj2 => by simp at hj2; omega⟩
        · rw [publishToRelayLoop_retry outcomes maxRetries a0 fuel e hg
            houtcome hlast]
          obtain ⟨ihle, ihrej⟩ := ih (a0 + 1)
          refine ⟨by simp; omega, ?_⟩
          intro j hj1 hj2
          simp at hj2
          rcases Nat.eq_or_lt_of_le hj1 with rfl | hlt
          · exact ⟨e, houtcome⟩
          · exact ihrej j hlt hj2

/-- C5: For every relay-attempt behaviour and `maxAttempts ≥ 1`,
publishWithRetry (publishToRelay) returns a resolved first attempt — in
particular a received-but-negative ack, which resolves with
`success = false` — immediately, after exactly one attempt and with no
backoff delay; and it enters a further attempt only when the preceding
attempt rejected (a Timeout or TransportError, the only reject modes of
`connectAndPublish`), never after a resolved ack. -/
theorem publishToRelay_no_retry_on_resolved_ack
    (outcomes : Nat → AttemptOutcome) (maxRetries : Nat) (h : 1 ≤ maxRetries) :
    (∀ a, outcomes 1 = .resolved a →
      publishToRelay outcomes maxRetries = (some (.ok a), 1, [])) ∧
    ∀ j, 1 ≤ j → j < (publishToRelay outcomes maxRetries).2.1 →
      ∃ e, outcomes j = .rejectedWith e := by
  constructor
  · intro a ha
    unfold publishToRelay
    obtain ⟨m, rfl⟩ : ∃ m, maxRetries = m + 1 := ⟨maxRetries - 1, by omega⟩
    exact publishToRelayLoop_resolved outcomes (m + 1) 1 m a (by omega) ha
  · exact (publishToRelayLoop_attempts outcomes maxRetries maxRetries 1).2

/-- Witness negative ack for the C5 theorem. -/
def w5NegAck : AckResult :=
  { relay := "wss://relay.example", success := false,
    message := JSVal.str "blocked: pow too low" }

/-- Witness attempt behaviour for the C5 theorem: every attempt resolves
with the negative ack. -/
def w5Outcomes : Nat → AttemptOutcome := fun _ => .resolved w5NegAck

/-- Witness for the C5 theorem: with 3 allowed attempts, a first-attempt
negative ack is returned after exactly one attempt with no delays. -/
theorem publishToRelay_no_retry_on_resolved_ack_witness :
    publishToRelay w5Outcomes 3 = (some (.ok w5NegAck), 1, []) :=
  (publishToRelay_no_retry_on_resolved_ack w5Outcomes 3 (by decide)).1
    w5NegAck rfl

/-- Delay accounting for the retry loop started at attempt `a0 ≥ 1`: the
trace has one delay per attempt after the first, and the delay at index
`i` is `1000 * 2 ^ (a0 - 1 + i)` milliseconds. -/
theorem publishToRelayLoop_delays (outcomes : Nat → AttemptOutcome)
    (maxRetries : Nat) :
    ∀ (fuel a0 : Nat), 1 ≤ a0 →
      a0 ≤ (publishToRelayLoop outcomes maxRetries a0 fuel).2.1 ∧
      (publishToRelayLoop outcomes maxRetries a0 fuel).2.2.length
        = (publishToRelayLoop outcomes maxRetries a0 fuel).2.1 - a0 ∧
      ∀ i, i < (publishToRelayLoop outcomes maxRetries a0 fuel).2.2.length →
        (publishToRelayLoop outcomes maxRetries a0 fuel).2.2.getD i 0
          = 1000 * 2 ^ (a0 - 1 + i) := by
  intro fuel
  induction fuel with
  | zero =>
    intro a0 ha0
    refine ⟨Nat.le_refl _, by simp [publishToRelayLoop], ?_⟩
    intro i hi
    simp [publishToRelayLoop] at hi
  | succ fuel ih =>
    intro a0 ha0
    by_cases hg : maxRetries < a0
    · rw [publishToRelayLoop_guard outcomes maxRetries a0 fuel hg]
      exact ⟨Nat.le_refl _, by simp, fun i hi => by simp at hi⟩
    · cases houtcome : outcomes a0 with
      | resolved a =>
        rw [publishToRelayLoop_resolved outcomes maxRetries a0 fuel a hg houtcome]
        exact ⟨Nat.le_refl _, by simp, fun i hi => by simp at hi⟩
      | rejectedWith e =>
        by_cases hlast : a0 = maxRetries
        · rw [publishToRelayLoop_last_error outcomes maxRetries a0 fuel e hg
            houtcome hlast]
          exact ⟨Nat.le_refl _, by simp, fun i hi => by simp at hi⟩
        · rw [publishToRelayLoop_retry outcomes maxRetries a0 fuel e hg
            houtcome hlast]
          obtain ⟨ihle, ihlen, ihget⟩ := ih (a0 + 1) (by omega)
          refine ⟨by simp; omega, by simp; omega, ?_⟩
          intro i hi
          match i with
          | 0 =>
            simp
          | Nat.succ ip =>
            have hip : ip < (publishToRelayLoop outcomes maxRetries (a0 + 1)
                fuel).2.2.length := by
              simp at hi
              omega
            have hg2 := ihget ip hip
            simp only [List.getD_cons_succ]
            rw [hg2]
            have hexp : a0 + 1 - 1 + ip = a0 - 1 + (ip + 1) := by omega
            rw [hexp]

/-- C8: For every relay-attempt behaviour and `maxAttempts ≥ 2`, there is no
delay before the first attempt (the delay trace covers only attempts
2, 3, …: it has exactly one entry per attempt after the first), and the
delay preceding attempt `k` — entry `k - 2` of the trace — equals
`1000 * 2 ^ (k - 2)` ms, i.e. base `× 1, × 2, × 4, …` with base
1000 ms = 1 time unit. -/
theorem publishToRelay_exponential_backoff (outcomes : Nat → AttemptOutcome)
    (maxRetries : Nat) (h : 2 ≤ maxRetries) :
    1 ≤ (publishToRelay outcomes maxRetries).2.1 ∧
    (publishToRelay outcomes maxRetries).2.2.length
      = (publishToRelay outcomes maxRetries).2.1 - 1 ∧
    ∀ i, i < (publishToRelay outcomes maxRetries).2.2.length →
      (publishToRelay outcomes maxRetries).2.2.getD i 0 = 1000 * 2 ^ i := by
  obtain ⟨h1, h2, h3⟩ :=
    publishToRelayLoop_delays outcomes maxRetries maxRetries 1 (Nat.le_refl 1)
  refine ⟨h1, h2, ?_⟩
  intro i hi
  simpa using h3 i hi

/-- Witness attempt behaviour for the C8 theorem: attempts 1 and 2 time out,
attempt 3 resolves. -/
def w8Outcomes : Nat → AttemptOutcome :=
  fun k => if k < 3 then .rejectedWith (.timeout "wss://relay.example")
           else .resolved w5NegAck

/-- Witness for the C8 theorem: in a concrete 3-attempt run, the delay
before attempt 2 is `1000 * 2 ^ 0` ms. -/
theorem publishToRelay_exponential_backoff_witness :
    (publishToRelay w8Outcomes 3).2.2.getD 0 0 = 1000 * 2 ^ 0 :=
  (publishToRelay_exponential_backoff w8Outcomes 3 (by decide)).2.2 0 (by decide)

/-! ## Aggregation of relay outcomes in `postToNostr` -/

/-- One entry of `failedRelays` (`src/index.js` lines 340-343). -/
structure FailEntry where
  relay : String
  error : String
deriving DecidableEq

/-- One element of the `Promise.allSettled` result over the per-relay
publishes (`src/index.js` lines 326-330): the promise either fulfilled
with `publishToRelay`'s value or rejected with an error (whose message is
kept). -/
inductive SettledResult where
  | fulfilled (v : AckResult)
  | rejected (reason : String)
deriving DecidableEq

/-- The `relayResults.forEach((result, index) => ...)` loop of `postToNostr`
(`src/index.js` lines 336-345): a fulfilled result's value is pushed onto
`successfulRelays` — with no look at its `success` flag — and a rejected
result is pushed onto `failedRelays` as `{ relay: relays[index],
error: reason.message }`. -/
def partitionLoop (relays : List String) :
    Nat → List SettledResult → List AckResult → List FailEntry →
      List AckResult × List FailEntry
  | _, [], succs, fails => (succs, fails)
  | i, r :: rest, succs, fails =>
    match r with
    | .fulfilled v => partitionLoop relays (i + 1) rest (succs ++ [v]) fails
    | .rejected m =>
        partitionLoop relays (i + 1) rest succs
          (fails ++ [{ relay := relays.getD i "", error := m }])

/-- The full partition pass over the settled relay results
(`src/index.js` lines 332-345). -/
def processRelayResults (relays : List String)
    (results : List SettledResult) : List AckResult × List FailEntry :=
  partitionLoop relays 0 results [] []

/-- The value of a fulfilled settled result. -/
def fulfilledValue : SettledResult → Option AckResult
  | .fulfilled v => some v
  | .rejected _ => none

/-- Whether a settled result is fulfilled. -/
def isFulfilled : SettledResult → Bool
  | .fulfilled _ => true
  | .rejected _ => false

/-- The failure entry an indexed rejected settled result contributes. -/
def rejectedEntry (relays : List String) : Nat × SettledResult → Option FailEntry
  | (i, .rejected m) => some { relay := relays.getD i "", error := m }
  | (_, .fulfilled _) => none

/-- Closed form of the partition loop: appending the fulfilled values and
the indexed rejected entries to the accumulators. -/
theorem partitionLoop_spec (relays : List String) :
    ∀ (results : List SettledResult) (i : Nat) (succs : List AckResult)
      (fails : List FailEntry),
      partitionLoop relays i results succs fails
        = (succs ++ results.filterMap fulfilledValue,
           fails ++ (results.enumFrom i).filterMap (rejectedEntry relays)) := by
  intro results
  induction results with
  | nil =>
    intro i succs fails
    simp [partitionLoop]
  | cons r rest ih =>
    intro i succs fails
    cases r with
    | fulfilled v =>
      simp [partitionLoop, ih, fulfilledValue, rejectedEntry]
    | rejected m =>
      simp [partitionLoop, ih, fulfilledValue, rejectedEntry]

/-- C2 (amended): the partition of relay outcomes is by promise settlement,
not by the ack's failure flag: the success partition is exactly the list
of fulfilled values — including acks with `success = false` (explicit
relay rejections) — and the failure partition holds exactly the rejected
promises (raised errors). -/
theorem processRelayResults_partitions_by_settlement (relays : List String)
    (results : List SettledResult) :
    processRelayResults relays results
      = (results.filterMap fulfilledValue,
         results.enum.filterMap (rejectedEntry relays)) := by
  simp [processRelayResults, partitionLoop_spec, List.enum]

/-- An explicit relay rejection: an acknowledgment with the failure flag set
(`success = false`). -/
def c2RejAck : AckResult :=
  { relay := "wss://relay.example", success := false,
    message := JSVal.str "blocked: spam detected" }

/-- C2 as stated is false: a fulfilled outcome carrying an ack with the
failure flag set (`success = false`, an explicit relay rejection) is
counted in the success partition, and the failure partition stays
empty. -/
theorem partition_counts_rejection_ack_as_success_cex :
    processRelayResults ["wss://relay.example"] [.fulfilled c2RejAck]
      = ([c2RejAck], []) ∧ c2RejAck.success = false := by
  decide

/-- The relay-related part of the result object `postToNostr` builds
(`src/index.js` lines 352-384). -/
structure PostSummary where
  publishedTo : Nat
  totalRelays : Nat
  successfulRelays : List AckResult
  failedRelays : List FailEntry
deriving DecidableEq

/-- `src/index.js` lines 332-384: partition the settled results, throw
`"Failed to publish to any relay"` when `successfulRelays.length === 0`,
and otherwise assemble the relay fields of the returned result. -/
def aggregateRelayResults (relays : List String)
    (results : List SettledResult) : Except String PostSummary :=
  if (processRelayResults relays results).1.length = 0 then
    .error "Failed to publish to any relay"
  else
    .ok { publishedTo := (processRelayResults relays results).1.length,
          totalRelays := relays.length,
          successfulRelays := (processRelayResults relays results).1,
          failedRelays := (processRelayResults relays results).2 }

/-- The success partition counts the fulfilled results. -/
theorem length_filterMap_fulfilled (results : List SettledResult) :
    (results.filterMap fulfilledValue).length = results.countP isFulfilled := by
  induction results with
  | nil => simp
  | cons r rest ih =>
    cases r <;> simp [fulfilledValue, isFulfilled, ih, List.countP_cons]

/-- C3 (amended): for every relay list and settled results, either no
promise fulfilled — no relay responded with any ack at all — and the call
fails with the `"Failed to publish to any relay"` aggregate error, or the
call returns a result whose `publishedTo` equals the number of fulfilled
promises and is `≥ 1`.  (The count is of acks received, whatever their
success flag — not of relays that accepted the event.) -/
theorem aggregateRelayResults_ok_iff_some_fulfilled (relays : List String)
    (results : List SettledResult) :
    (aggregateRelayResults relays results
        = .error "Failed to publish to any relay" ∧
      results.countP isFulfilled = 0) ∨
    (∃ s, aggregateRelayResults relays results = .ok s ∧
      s.publishedTo = results.countP isFulfilled ∧ 1 ≤ s.publishedTo) := by
  have hcount : (processRelayResults relays results).1.length
      = results.countP isFulfilled := by
    rw [processRelayResults_partitions_by_settlement]
    exact length_filterMap_fulfilled results
  by_cases hz : (processRelayResults relays results).1.length = 0
  · left
    refine ⟨by simp [aggregateRelayResults, hz], ?_⟩
    rw [← hcount]
    exact hz
  · right
    refine ⟨{ publishedTo := (processRelayResults relays results).1.length,
              totalRelays := relays.length,
              successfulRelays := (processRelayResults relays results).1,
              failedRelays := (processRelayResults relays results).2 },
      by simp [aggregateRelayResults, hz], hcount, Nat.pos_of_ne_zero hz⟩

/-- C3 as stated is false: a publish call whose single relay acknowledged
with the failure flag set returns a result (`publishedTo = 1`) even
though no relay accepted the event (no entry has `success = true`). -/
theorem aggregateResults_ok_without_accepting_relay_cex :
    aggregateRelayResults ["wss://relay.example"] [.fulfilled c2RejAck]
      = .ok { publishedTo := 1, totalRelays := 1,
              successfulRelays := [c2RejAck], failedRelays := [] } ∧
    List.countP (fun a => a.success) [c2RejAck] = 0 := by
  decide

/-! ## Input sanitization -/

/-- A JavaScript number as produced by `Number(x)`: `NaN` (the conversion of
every non-numeric value), the infinities, or a finite value. -/
inductive JSNum where
  | nan
  | inf
  | ninf
  | num (q : Rat)
deriving DecidableEq

/-- JavaScript truthiness of a number: `NaN` and `±0` are falsy. -/
def jsNumTruthy : JSNum → Bool
  | .nan => false
  | .num q => !(q == 0)
  | _ => true

/-- `x || d` on a converted number: the default replaces every falsy
conversion. -/
def jsOrDefault (x d : JSNum) : JSNum :=
  if jsNumTruthy x then x else d

/-- `Math.min` on JavaScript numbers. -/
def jsMin : JSNum → JSNum → JSNum
  | .nan, _ => .nan
  | _, .nan => .nan
  | .ninf, _ => .ninf
  | _, .ninf => .ninf
  | .inf, y => y
  | x, .inf => x
  | .num a, .num b => .num (min a b)

/-- `Math.max` on JavaScript numbers. -/
def jsMax : JSNum → JSNum → JSNum
  | .nan, _ => .nan
  | _, .nan => .nan
  | .inf, _ => .inf
  | _, .inf => .inf
  | .ninf, y => y
  | x, .ninf => x
  | .num a, .num b => .num (max a b)

/-- `DEFAULT_POW_DIFFICULTY` (`src/index.js` line 28). -/
def DEFAULT_POW_DIFFICULTY : JSNum := .num 2

/-- The powDifficulty sanitization of `validateAndSanitizeInputs`
(`src/index.js` line 58):
`Math.max(0, Math.min(Number(options.powDifficulty) || DEFAULT_POW_DIFFICULTY, 32))`,
as a function of the already-converted `Number(options.powDifficulty)`. -/
def sanitizePowDifficulty (x : JSNum) : JSNum :=
  jsMax (.num 0) (jsMin (jsOrDefault x DEFAULT_POW_DIFFICULTY) (.num 32))

/-- For a nonzero finite input the sanitizer is the plain clamp
`max 0 (min q 32)`. -/
theorem sanitizePowDifficulty_num_ne_zero (q : Rat) (hq0 : ¬q = 0) :
    sanitizePowDifficulty (.num q) = .num (max 0 (min q 32)) := by
  have ht : jsNumTruthy (JSNum.num q) = true := by
    simp [jsNumTruthy, beq_iff_eq, hq0]
  simp [sanitizePowDifficulty, jsOrDefault, ht, jsMin, jsMax]

/-- C10: at the public entry point, `powDifficulty: 0` and every value whose
numeric conversion is `NaN` (any non-numeric value) sanitize to the
default difficulty 2, never 0; the only inputs that reach effective
difficulty 0 are negative ones (which the clamp maps to 0); and the
sanitized value always lies in `[0, 32]`. -/
theorem sanitizePowDifficulty_spec :
    sanitizePowDifficulty (.num 0) = .num 2 ∧
    sanitizePowDifficulty .nan = .num 2 ∧
    (∀ q : Rat, q < 0 → sanitizePowDifficulty (.num q) = .num 0) ∧
    (∀ x, sanitizePowDifficulty x = .num 0 →
      x = .ninf ∨ ∃ q, x = .num q ∧ q < 0) ∧
    ∀ x, ∃ q, sanitizePowDifficulty x = .num q ∧ 0 ≤ q ∧ q ≤ 32 := by
  refine ⟨by decide, by decide, ?_, ?_, ?_⟩
  · intro q hq
    have hq0 : ¬(q = 0) := fun h => absurd (h ▸ hq) (by norm_num)
    have hclamp : max 0 (min q 32) = 0 :=
      max_eq_left (le_trans (min_le_left q 32) (le_of_lt hq))
    rw [sanitizePowDifficulty_num_ne_zero q hq0, hclamp]
  · intro x hx
    cases x with
    | nan => exact absurd hx (by decide)
    | inf => exact absurd hx (by decide)
    | ninf => exact Or.inl rfl
    | num q =>
      by_cases hq0 : q = 0
      · subst hq0
        exact absurd hx (by decide)
      · refine Or.inr ⟨q, rfl, ?_⟩
        rw [sanitizePowDifficulty_num_ne_zero q hq0] at hx
        have hmax : max 0 (min q 32) = 0 := by
          injection hx
        rcases lt_trichotomy q 0 with h | h | h
        · exact h
        · exact absurd h hq0
        · exfalso
          have h1 : (0 : Rat) < min q 32 := lt_min h (by norm_num)
          have h2 := le_max_right (0 : Rat) (min q 32)
          linarith
  · intro x
    cases x with
    | nan => exact ⟨2, by decide, by norm_num, by norm_num⟩
    | inf => exact ⟨32, by decide, by norm_num, by norm_num⟩
    | ninf => exact ⟨0, by decide, by norm_num, by norm_num⟩
    | num q =>
      by_cases hq0 : q = 0
      · subst hq0
        exact ⟨2, by decide, by norm_num, by norm_num⟩
      · exact ⟨max 0 (min q 32), sanitizePowDifficulty_num_ne_zero q hq0,
          le_max_left _ _, max_le (by norm_num) (min_le_right _ _)⟩

/-- Witness for the C10 theorem: a negative input sanitizes to difficulty
0. -/
theorem sanitizePowDifficulty_spec_witness :
    sanitizePowDifficulty (JSNum.num (-1)) = JSNum.num 0 :=
  sanitizePowDifficulty_spec.2.2.1 (-1) (by norm_num)
